import Mathlib

/-!
# Verification of the pi-messenger coordination core

A shallow embedding of the swarm claim/complete protocol (`src/store.ts`),
presence status derivation and path reservations (`src/lib.ts`), the crew
task store (`src/crew/store.ts`), and the autonomous wave loop
(`src/crew/handlers/work.ts` together with the `agent_end` handler in
`src/index.ts`), with theorems checking the natural-language specification
against the code.

JavaScript objects (`Record<string, T>`) are embedded as association lists
`List (String × T)` preserving insertion order; filesystem state that an
operation reads (process liveness, registration files) is passed explicitly
as an environment.
-/

namespace PiMessenger

/-! ## Association-list primitives

`alGet`/`alSet`/`alRemove` model JavaScript object key lookup, key assignment
(overwrite in place, or append for a fresh key — JS objects preserve insertion
order for non-numeric string keys such as task ids), and `delete`. -/

def alGet {α : Type} : List (String × α) → String → Option α
  | [], _ => none
  | (k, v) :: rest, key => if k = key then some v else alGet rest key

def alSet {α : Type} : List (String × α) → String → α → List (String × α)
  | [], key, v => [(key, v)]
  | (k, w) :: rest, key, v =>
      if k = key then (key, v) :: rest else (k, w) :: alSet rest key v

def alRemove {α : Type} : List (String × α) → String → List (String × α)
  | [], _ => []
  | (k, w) :: rest, key => if k = key then rest else (k, w) :: alRemove rest key

/-! ## Swarm data model (`src/lib.ts` interfaces, `src/store.ts` state)

`ClaimEntry`, `CompletionEntry`, `AllClaims`, `AllCompletions` mirror the
interfaces in `src/lib.ts`.  `pid` is a Nat (OS process id).  The registry
lookup that `isClaimStale` performs (`registry/<agent>.json`) is modelled by
`SwarmEnv.reg`; process liveness (`isProcessAlive`) by `SwarmEnv.alive`. -/

structure ClaimEntry where
  agent : String
  sessionId : String
  pid : Nat
  claimedAt : String
  reason : Option String
  deriving DecidableEq, Repr

structure CompletionEntry where
  completedBy : String
  completedAt : String
  notes : Option String
  deriving DecidableEq, Repr

abbrev SpecClaims := List (String × ClaimEntry)
abbrev AllClaims := List (String × SpecClaims)
abbrev SpecCompletions := List (String × CompletionEntry)
abbrev AllCompletions := List (String × SpecCompletions)

/-- Fields of `AgentRegistration` that `isClaimStale` reads. -/
structure AgentRegistration where
  pid : Nat
  sessionId : String
  deriving DecidableEq, Repr

/-- Outcome of reading `registry/<agent>.json`: the file may be absent
(`fs.existsSync` false), present but unparsable (the `catch` branch), or
successfully parsed. -/
inductive RegLookup where
  | missing
  | unreadable
  | found (r : AgentRegistration)
  deriving DecidableEq, Repr

/-- The parts of the world `isClaimStale` consults: process liveness and the
registry directory. -/
structure SwarmEnv where
  alive : Nat → Bool
  reg : String → RegLookup

/-- `isClaimStale` (src/store.ts:696-708): a claim is stale if its PID is dead,
the registration file is missing or unreadable, the registration's PID is dead,
or the registration's session id differs from the claim's. -/
def isClaimStale (env : SwarmEnv) (claim : ClaimEntry) : Bool :=
  if !env.alive claim.pid then true
  else
    match env.reg claim.agent with
    | .missing => true
    | .unreadable => true
    | .found r =>
        if !env.alive r.pid then true
        else if r.sessionId ≠ claim.sessionId then true
        else false

/-- `cleanupStaleClaims` (src/store.ts:710-724): delete every stale claim, then
delete spec keys whose task map became empty.  (The source also returns the
number of removals; `countStale` below recovers it.) -/
def cleanupStaleClaims (env : SwarmEnv) (claims : AllClaims) : AllClaims :=
  (claims.map fun st => (st.1, st.2.filter fun tc => !isClaimStale env tc.2)).filter
    fun st => !st.2.isEmpty

/-- The `removed` counter of `cleanupStaleClaims`. -/
def countStale (env : SwarmEnv) (claims : AllClaims) : Nat :=
  (claims.map fun st => (st.2.filter fun tc => isClaimStale env tc.2).length).sum

/-- `filterStaleClaims` (src/store.ts:726-740): rebuild the map keeping only
non-stale claims, dropping spec keys with no surviving claim. -/
def filterStaleClaims (env : SwarmEnv) (claims : AllClaims) : AllClaims :=
  claims.filterMap fun st =>
    let filteredTasks := st.2.filter fun tc => !isClaimStale env tc.2
    if filteredTasks.isEmpty then none else some (st.1, filteredTasks)

def findInSpec (spec : String) (agent : String) : SpecClaims → Option (String × String)
  | [] => none
  | (taskId, claim) :: rest =>
      if claim.agent = agent then some (spec, taskId) else findInSpec spec agent rest

/-- `findAgentClaim` (src/store.ts:742-751): the first claim (in object
iteration order) owned by `agent`, as a (spec, taskId) pair. -/
def findAgentClaim : AllClaims → String → Option (String × String)
  | [], _ => none
  | (spec, tasks) :: rest, agent =>
      match findInSpec spec agent tasks with
      | some r => some r
      | none => findAgentClaim rest agent

/-- `claims[spec]?.[taskId]`. -/
def getClaim (claims : AllClaims) (spec taskId : String) : Option ClaimEntry :=
  (alGet claims spec).bind fun tasks => alGet tasks taskId

/-- `if (!claims[spec]) claims[spec] = {}; claims[spec][taskId] = c`. -/
def setClaim (claims : AllClaims) (spec taskId : String) (c : ClaimEntry) : AllClaims :=
  alSet claims spec (alSet ((alGet claims spec).getD []) taskId c)

/-- `delete claims[spec][taskId]; if empty, delete claims[spec]`
(the deletion sequence used by `unclaimTask` and `completeTask`). -/
def removeClaim (claims : AllClaims) (spec taskId : String) : AllClaims :=
  match alGet claims spec with
  | none => claims
  | some tasks =>
      let remaining := alRemove tasks taskId
      if remaining.isEmpty then alRemove claims spec else alSet claims spec remaining

/-- `completions[spec]?.[taskId]`. -/
def getCompletion (completions : AllCompletions) (spec taskId : String) :
    Option CompletionEntry :=
  (alGet completions spec).bind fun tasks => alGet tasks taskId

/-- `if (!completions[spec]) completions[spec] = {}; completions[spec][taskId] = e`. -/
def setCompletion (completions : AllCompletions) (spec taskId : String)
    (e : CompletionEntry) : AllCompletions :=
  alSet completions spec (alSet ((alGet completions spec).getD []) taskId e)

/-- `getClaims` (src/store.ts:753-756): read and filter stale claims (read path,
nothing written back). -/
def getClaims (env : SwarmEnv) (stored : AllClaims) : AllClaims :=
  filterStaleClaims env stored

/-! ## Swarm operations (critical sections of `claimTask`, `unclaimTask`,
`completeTask`)

Each function embeds the body executed under `withSwarmLock`.  The returned
map(s) are the stored state after the critical section: on paths where the
source skips the write (`removed = 0`), the file content equals the cleaned
in-memory map anyway, so returning the in-memory map is faithful. -/

inductive ClaimResult where
  | success (claimedAt : String)
  | alreadyClaimed (conflict : ClaimEntry)
  | alreadyHaveClaim (spec taskId : String)
  deriving DecidableEq, Repr

/-- `claimTask` (src/store.ts:802-839). `now` stands for
`new Date().toISOString()`. -/
def claimTask (env : SwarmEnv) (stored : AllClaims) (specPath taskId agent sessionId : String)
    (pid : Nat) (reason : Option String) (now : String) : ClaimResult × AllClaims :=
  let claims := cleanupStaleClaims env stored
  match findAgentClaim claims agent with
  | some (s, t) => (.alreadyHaveClaim s t, claims)
  | none =>
      match getClaim claims specPath taskId with
      | some conflict => (.alreadyClaimed conflict, claims)
      | none =>
          let newClaim : ClaimEntry :=
            { agent := agent, sessionId := sessionId, pid := pid,
              claimedAt := now, reason := reason }
          (.success now, setClaim claims specPath taskId newClaim)

inductive UnclaimResult where
  | success
  | notClaimed
  | notYourClaim (claimedBy : String)
  deriving DecidableEq, Repr

/-- `unclaimTask` (src/store.ts:850-876). -/
def unclaimTask (env : SwarmEnv) (stored : AllClaims) (specPath taskId agent : String) :
    UnclaimResult × AllClaims :=
  let claims := cleanupStaleClaims env stored
  match getClaim claims specPath taskId with
  | none => (.notClaimed, claims)
  | some claim =>
      if claim.agent ≠ agent then (.notYourClaim claim.agent, claims)
      else (.success, removeClaim claims specPath taskId)

inductive CompleteResult where
  | success (completedAt : String)
  | notClaimed
  | notYourClaim (claimedBy : String)
  | alreadyCompleted (completion : CompletionEntry)
  deriving DecidableEq, Repr

/-- `isCompleteSuccess` (src/store.ts). -/
def isCompleteSuccess : CompleteResult → Bool
  | .success _ => true
  | _ => false

/-- A file write performed inside the `completeTask` critical section, in
order: `writeCompletionsSync` / `writeClaimsSync`. -/
inductive SwarmWrite where
  | completionsFile (m : AllCompletions)
  | claimsFile (m : AllClaims)
  deriving DecidableEq, Repr

structure CompleteOutcome where
  result : CompleteResult
  claims : AllClaims
  completions : AllCompletions
  writes : List SwarmWrite
  deriving DecidableEq, Repr

/-- `completeTask` (src/store.ts:898-945).  Error paths write the claims file
only when stale claims were removed; the success path writes completions
first, claims second. -/
def completeTask (env : SwarmEnv) (stored : AllClaims) (completions : AllCompletions)
    (specPath taskId agent : String) (notes : Option String) (now : String) :
    CompleteOutcome :=
  let claims := cleanupStaleClaims env stored
  let removed := countStale env stored
  let errWrites : List SwarmWrite :=
    if removed > 0 then [.claimsFile claims] else []
  match getCompletion completions specPath taskId with
  | some existing =>
      ⟨.alreadyCompleted existing, claims, completions, errWrites⟩
  | none =>
      match getClaim claims specPath taskId with
      | none => ⟨.notClaimed, claims, completions, errWrites⟩
      | some claim =>
          if claim.agent ≠ agent then ⟨.notYourClaim claim.agent, claims, completions, errWrites⟩
          else
            let claims' := removeClaim claims specPath taskId
            let completion : CompletionEntry :=
              { completedBy := agent, completedAt := now, notes := notes }
            let completions' := setCompletion completions specPath taskId completion
            ⟨.success now, claims', completions',
              [.completionsFile completions', .claimsFile claims']⟩

/-! ## Presence status derivation (`src/lib.ts:139-163`)

`computeStatus` computes `elapsed = Date.now() - new Date(lastActivityAt).getTime()`;
an unparsable timestamp yields `NaN`.  We embed `elapsed` as `Option Int`
(`none` = NaN, `some v` = `v` milliseconds, negative when the timestamp lies
in the future). -/

inductive AgentStatus where
  | active
  | idle
  | away
  | stuck
  deriving DecidableEq, Repr

structure ComputedStatus where
  status : AgentStatus
  idleFor : Option String
  deriving DecidableEq, Repr

/-- `formatDuration` (src/lib.ts:164-171).  Only reached with `ms ≥ 30000`, so
`Math.floor` on a nonnegative quotient is Nat division after `toNat`. -/
def formatDuration (ms : Int) : String :=
  let seconds : Nat := (ms / 1000).toNat
  let minutes : Nat := seconds / 60
  let hours : Nat := minutes / 60
  if hours > 0 then s!"{hours}h {minutes % 60}m"
  else if minutes > 0 then s!"{minutes}m {seconds % 60}s"
  else s!"{seconds}s"

/-- `computeStatus` (src/lib.ts:139-162).  `ACTIVE_MS = 30_000`,
`IDLE_MS = 5 * 60_000`. -/
def computeStatus (elapsed : Option Int) (hasTask hasReservation : Bool)
    (thresholdMs : Int) : ComputedStatus :=
  match elapsed with
  | none => ⟨.active, none⟩
  | some e =>
      if e < 0 then ⟨.active, none⟩
      else if e < 30000 then ⟨.active, none⟩
      else if e < 300000 then ⟨.idle, some (formatDuration e)⟩
      else if !hasTask && !hasReservation then ⟨.away, some (formatDuration e)⟩
      else if e ≥ thresholdMs then ⟨.stuck, some (formatDuration e)⟩
      else ⟨.idle, some (formatDuration e)⟩

/-! ## Path reservations (`src/lib.ts:463-477`) -/

/-- JS `String.prototype.startsWith`. -/
def strStartsWith (s p : String) : Bool :=
  p.data.isPrefixOf s.data

/-- JS `String.prototype.endsWith`. -/
def strEndsWith (s p : String) : Bool :=
  p.data.isSuffixOf s.data

/-- The fields of `FileReservation` that reservation matching reads. -/
structure FileReservation where
  path : String
  isDir : Bool
  deriving DecidableEq, Repr

/-- `trimmed.replace(/[\\/]+$/, "")`: strip the trailing run of slashes and
backslashes. -/
def stripTrailingSlashes (s : String) : String :=
  String.mk ((s.data.reverse.dropWhile fun ch => ch = '/' || ch = '\\').reverse)

/-- `normalizeReservationPath` (src/lib.ts:463-468), with `normalizeFsPath`
(which calls node's `resolve`/`normalize`) abstracted as `normFs`.  On POSIX
`sep = "/"`, so the directory test is a single `endsWith "/"`. -/
def normalizeReservationPath (normFs : String → String) (input : String) :
    String × Bool :=
  let trimmed := input.trim
  let isDir := strEndsWith trimmed "/" || strEndsWith trimmed "/"
  let withoutTrailing := stripTrailingSlashes trimmed
  (normFs withoutTrailing, isDir)

/-- `reservationMatches` (src/lib.ts:470-477).  `!fileAbsPath` is the JS falsy
test, i.e. the empty string. -/
def reservationMatches (fileAbsPath : String) (reservation : FileReservation) : Bool :=
  if fileAbsPath = "" then false
  else if reservation.isDir then
    let dirPat :=
      if strEndsWith reservation.path "/" then reservation.path
      else reservation.path ++ "/"
    decide (fileAbsPath = reservation.path) || strStartsWith fileAbsPath dirPat
  else decide (fileAbsPath = reservation.path)

/-! ## Crew task store (`src/crew/store.ts`)

Tasks live as `crew/tasks/task-N.json`; we embed the store as the list of
parsed tasks (`getTasks`).  Only the fields read or written by the modelled
operations are carried. -/

inductive TaskStatus where
  | todo
  | in_progress
  | done
  | blocked
  deriving DecidableEq, Repr

structure Task where
  id : String
  title : String
  status : TaskStatus
  depends_on : List String
  assigned_to : Option String
  blocked_reason : Option String
  updated_at : String
  deriving DecidableEq, Repr

/-- `getTask` (src/crew/store.ts:189-191): read `tasks/<id>.json`. -/
def getTask (tasks : List Task) (taskId : String) : Option Task :=
  tasks.find? fun t => t.id = taskId

/-- `getReadyTasks` (src/crew/store.ts:369-380): tasks in `todo` whose
dependencies are all ids of `done` tasks (`doneIds.has` is set membership). -/
def getReadyTasks (tasks : List Task) : List Task :=
  let doneIds := (tasks.filter fun t => decide (t.status = .done)).map Task.id
  tasks.filter fun task =>
    decide (task.status = .todo) &&
      task.depends_on.all fun depId => decide (depId ∈ doneIds)

/-- A concrete task record used by witnesses and counterexamples. -/
def mkTask (id : String) (status : TaskStatus) : Task :=
  { id := id, title := "T", status := status, depends_on := [],
    assigned_to := none, blocked_reason := none, updated_at := "t0" }

/-- Result of `blockTask`: the returned task, the post-state of the task
store, and the `blocks/<id>.md` write (path key and content), if any. -/
structure BlockOutcome where
  result : Option Task
  tasks : List Task
  blockFile : Option (String × String)
  deriving DecidableEq, Repr

/-- `blockTask` (src/crew/store.ts:288-301): looks the task up, writes
`blocks/<id>.md`, then updates status/blocked_reason and clears the assignee
via `updateTask` (which stamps `updated_at`).  There is no status guard. -/
def blockTask (tasks : List Task) (taskId reason now : String) : BlockOutcome :=
  match getTask tasks taskId with
  | none => ⟨none, tasks, none⟩
  | some task =>
      let content :=
        "# Blocked: " ++ task.title ++ "\n\n**Reason:** " ++ reason ++
          "\n\n**Blocked at:** " ++ now ++ "\n"
      let updated : Task :=
        { task with
            status := .blocked
            blocked_reason := some reason
            assigned_to := none
            updated_at := now }
      ⟨some updated, tasks.map fun t => if t.id = taskId then updated else t,
        some (taskId, content)⟩

/-! ## Autonomous wave loop

The post-wave stop decision is split between `execute` in
`src/crew/handlers/work.ts` (lines 132-177: stop completed / stop blocked /
persist-and-signal) and the `agent_end` handler in `src/index.ts` (lines
519-570: the `maxWaves` check, then a ready-task re-check, then the
continuation steer).  `waveEndOutcome` composes the two: the handler runs
only while the autonomous state is still active, i.e. when `execute` did not
stop. -/

inductive StopReason where
  | completed
  | blocked
  | manual
  deriving DecidableEq, Repr

inductive WaveOutcome where
  | stop (reason : StopReason)
  | nextWave
  deriving DecidableEq, Repr

/-- The autonomous branch at the end of `execute` (src/crew/handlers/work.ts):
`some r` means `stopAutonomous(r)` was called, `none` means state was
persisted and a `crew_wave_continue` entry appended. -/
def postWaveDecision (tasks : List Task) : Option StopReason :=
  let allDone := tasks.all fun t => decide (t.status = .done)
  let allBlockedOrDone :=
    tasks.all fun t => decide (t.status = .done) || decide (t.status = .blocked)
  let nextReady := getReadyTasks tasks
  if allDone then some .completed
  else if allBlockedOrDone || nextReady.isEmpty then some .blocked
  else none

/-- The `agent_end` handler in `src/index.ts` (reached only while autonomous
mode is still active): max-waves check first, then the ready-task check, else
the continuation steer for the next wave. -/
def agentEndDecision (tasks : List Task) (waveNumber maxWaves : Nat) : WaveOutcome :=
  if waveNumber ≥ maxWaves then .stop .manual
  else
    let readyTasks := getReadyTasks tasks
    if readyTasks.isEmpty then
      if tasks.all (fun t => decide (t.status = .done)) then .stop .completed
      else .stop .blocked
    else .nextWave

/-- Combined end-of-wave behaviour of an autonomous run. -/
def waveEndOutcome (tasks : List Task) (waveNumber maxWaves : Nat) : WaveOutcome :=
  match postWaveDecision tasks with
  | some r => .stop r
  | none => agentEndDecision tasks waveNumber maxWaves

/-! ## Spec-side definitions

Definitions written from the specification's words, to be compared against
the code-derived definitions above. -/

/-- All (spec, taskId) pairs claimed by `agent`, in iteration order. -/
def ownedBy (agent : String) (claims : AllClaims) : List (String × String) :=
  claims.flatMap fun st =>
    st.2.filterMap fun tc => if tc.2.agent = agent then some (st.1, tc.1) else none

/-- Single-claim-per-agent invariant: every agent owns at most one claim
across all specs. -/
def SingleClaimPerAgent (claims : AllClaims) : Prop :=
  ∀ agent, (ownedBy agent claims).length ≤ 1

/-- The multiset of claim entries stored in the map. -/
def claimEntries (claims : AllClaims) : List ClaimEntry :=
  claims.flatMap fun st => st.2.map Prod.snd

/-- Staleness exactly as the specification characterizes it: PID dead, or
registration missing or unreadable, or registration session id mismatch
(the registration's own PID is not consulted). -/
def isClaimStaleClaimed (env : SwarmEnv) (claim : ClaimEntry) : Bool :=
  !env.alive claim.pid ||
    (match env.reg claim.agent with
     | .missing => true
     | .unreadable => true
     | .found r => decide (r.sessionId ≠ claim.sessionId))

/-- Staleness characterization amended with the registration-PID disjunct
that the code actually checks. -/
def isClaimStaleAmended (env : SwarmEnv) (claim : ClaimEntry) : Bool :=
  !env.alive claim.pid ||
    (match env.reg claim.agent with
     | .missing => true
     | .unreadable => true
     | .found r => !env.alive r.pid || decide (r.sessionId ≠ claim.sessionId))

/-- The end-of-wave decision exactly as the specification's ordered guard
list states it: completed when all tasks are done; blocked when no task is
ready *and none is in progress*; manual when the wave count reached
`maxWaves`; otherwise continue. -/
def waveEndClaimed (tasks : List Task) (waveNumber maxWaves : Nat) : WaveOutcome :=
  if tasks.all (fun t => decide (t.status = .done)) then .stop .completed
  else if (getReadyTasks tasks).isEmpty &&
      !(tasks.any fun t => decide (t.status = .in_progress)) then .stop .blocked
  else if waveNumber ≥ maxWaves then .stop .manual
  else .nextWave

/-- The amended end-of-wave decision: blocked whenever no task is ready,
regardless of in-progress tasks. -/
def waveEndAmended (tasks : List Task) (waveNumber maxWaves : Nat) : WaveOutcome :=
  if tasks.all (fun t => decide (t.status = .done)) then .stop .completed
  else if (getReadyTasks tasks).isEmpty then .stop .blocked
  else if waveNumber ≥ maxWaves then .stop .manual
  else .nextWave

/-! ## Theorems -/

/-- Claim C6: `getReadyTasks` returns exactly the tasks whose status is `todo`
and all of whose dependency ids belong to tasks with status `done`; a task
with an unmet dependency or any other status is never returned. -/
theorem getReadyTasks_iff (tasks : List Task) (t : Task) :
    t ∈ getReadyTasks tasks ↔
      t ∈ tasks ∧ t.status = .todo ∧
        ∀ d ∈ t.depends_on, ∃ u ∈ tasks, u.status = .done ∧ u.id = d := by
  simp only [getReadyTasks, List.mem_filter, Bool.and_eq_true, decide_eq_true_eq,
    List.all_eq_true, List.mem_map]
  constructor
  · rintro ⟨hmem, hstatus, hdeps⟩
    refine ⟨hmem, hstatus, fun d hd => ?_⟩
    obtain ⟨u, ⟨humem, hudone⟩, huid⟩ := hdeps d hd
    exact ⟨u, humem, hudone, huid⟩
  · rintro ⟨hmem, hstatus, hdeps⟩
    refine ⟨hmem, hstatus, fun d hd => ?_⟩
    obtain ⟨u, humem, hudone, huid⟩ := hdeps d hd
    exact ⟨u, ⟨humem, hudone⟩, huid⟩

/-- Claim C10: an elapsed value of NaN (unparsable timestamp) or a negative
elapsed value (timestamp in the future) yields status `active` with no
`idleFor`, regardless of the claim/reservation flags and the threshold. -/
theorem computeStatus_invalid_elapsed (hasTask hasReservation : Bool)
    (thresholdMs : Int) (v : Int) (hv : v < 0) :
    computeStatus none hasTask hasReservation thresholdMs = ⟨.active, none⟩ ∧
      computeStatus (some v) hasTask hasReservation thresholdMs = ⟨.active, none⟩ := by
  refine ⟨rfl, ?_⟩
  simp [computeStatus, hv]

theorem computeStatus_invalid_elapsed_witness :
    (-5 : Int) < 0 ∧
      computeStatus (some (-5)) true false 900000 = ⟨.active, none⟩ :=
  ⟨by decide, (computeStatus_invalid_elapsed true false 900000 (-5) (by decide)).2⟩

/-- Claim C7, counterexample: with threshold 60 s (below 5 minutes), an agent
with a claim whose elapsed time 90 s is at least the threshold is reported
`idle`, not `stuck` — the claim's stuck row fails for small thresholds. -/
theorem computeStatus_small_threshold_not_stuck :
    (60000 : Int) ≤ 90000 ∧
      (computeStatus (some 90000) true false 60000).status = .idle ∧
      (computeStatus (some 90000) true false 60000).status ≠ .stuck := by
  refine ⟨by decide, rfl, by decide⟩

/-- Claim C7 (amended): provided the stuck threshold is at least 5 minutes
(the default is 900 s), `computeStatus` realizes the status table: under 30 s
active; under 5 min idle; at least 5 min and below the threshold idle with a
claim/reservation and away without; at least the threshold with a
claim/reservation stuck. -/
theorem computeStatus_table (e thresholdMs : Int) (hasTask hasReservation : Bool)
    (hthr : 300000 ≤ thresholdMs) :
    (e < 30000 →
      (computeStatus (some e) hasTask hasReservation thresholdMs).status = .active) ∧
    (30000 ≤ e → e < 300000 →
      (computeStatus (some e) hasTask hasReservation thresholdMs).status = .idle) ∧
    (300000 ≤ e → e < thresholdMs → (hasTask = true ∨ hasReservation = true) →
      (computeStatus (some e) hasTask hasReservation thresholdMs).status = .idle) ∧
    (300000 ≤ e → e < thresholdMs → hasTask = false → hasReservation = false →
      (computeStatus (some e) hasTask hasReservation thresholdMs).status = .away) ∧
    (thresholdMs ≤ e → (hasTask = true ∨ hasReservation = true) →
      (computeStatus (some e) hasTask hasReservation thresholdMs).status = .stuck) := by
  cases hasTask <;> cases hasReservation <;>
    refine ⟨?_, ?_, ?_, ?_, ?_⟩ <;> intros <;>
      simp only [computeStatus] <;> split_ifs <;>
        first
          | rfl
          | omega
          | simp_all

theorem computeStatus_table_witness :
    (300000 : Int) ≤ 900000 ∧
      (computeStatus (some 1000000) true false 900000).status = .stuck :=
  ⟨by decide,
    (computeStatus_table 1000000 900000 true false (by decide)).2.2.2.2
      (by decide) (Or.inl rfl)⟩

/-- Claim C8, counterexample: `blockTask` has no status guard — blocking a
task whose status is `todo` succeeds and produces a `blocked` task, so
`blocked` is not entered only from `in_progress`. -/
theorem blockTask_from_todo :
    (getTask [mkTask "task-1" .todo] "task-1").map Task.status = some .todo ∧
      ((blockTask [mkTask "task-1" .todo] "task-1" "reason" "t1").result.map
        Task.status) = some .blocked := by
  exact ⟨rfl, rfl⟩

/-- Claim C8 (amended): the block operation moves *any existing* task to
`blocked` — regardless of its prior status — writing `blocks/<id>.md` with
the reason and clearing the assignee; it fails (returning nothing and leaving
the store untouched) only when the task does not exist. -/
theorem blockTask_semantics (tasks : List Task) (taskId reason now : String) :
    (∀ task, getTask tasks taskId = some task →
      (blockTask tasks taskId reason now).result =
          some { task with status := .blocked, blocked_reason := some reason, assigned_to := none, updated_at := now } ∧
        (blockTask tasks taskId reason now).blockFile =
          some (taskId, "# Blocked: " ++ task.title ++ "\n\n**Reason:** " ++ reason ++
            "\n\n**Blocked at:** " ++ now ++ "\n")) ∧
    (getTask tasks taskId = none →
      (blockTask tasks taskId reason now) = ⟨none, tasks, none⟩) := by
  constructor
  · intro task h
    simp [blockTask, h]
  · intro h
    simp [blockTask, h]

theorem blockTask_semantics_witness :
    getTask [mkTask "task-1" .done] "task-1" = some (mkTask "task-1" .done) ∧
      (blockTask [mkTask "task-1" .done] "task-1" "why" "t1").result =
        some { mkTask "task-1" .done with status := .blocked, blocked_reason := some "why", assigned_to := none, updated_at := "t1" } :=
  ⟨rfl, ((blockTask_semantics [mkTask "task-1" .done] "task-1" "why" "t1").1
    (mkTask "task-1" .done) rfl).1⟩

/-- Claim C9, counterexample: with a single `in_progress` task (no task
ready, wave 1 of 50), the code stops with reason `blocked`, whereas the
claim's decision — blocked only when no task is ready *and none is in
progress* — would continue to the next wave. -/
theorem waveEnd_in_progress_counterexample :
    (getReadyTasks [mkTask "task-1" .in_progress]).isEmpty = true ∧
      waveEndOutcome [mkTask "task-1" .in_progress] 1 50 = .stop .blocked ∧
      waveEndClaimed [mkTask "task-1" .in_progress] 1 50 = .nextWave := by
  exact ⟨rfl, rfl, rfl⟩

theorem ready_isEmpty_of_allBlockedOrDone (tasks : List Task)
    (h : tasks.all (fun t => decide (t.status = .done) || decide (t.status = .blocked)) =
      true) :
    (getReadyTasks tasks).isEmpty = true := by
  rw [List.isEmpty_iff, getReadyTasks]
  simp only [List.filter_eq_nil_iff, Bool.and_eq_true, decide_eq_true_eq, not_and]
  intro t ht hstatus
  rw [List.all_eq_true] at h
  have := h t ht
  simp only [Bool.or_eq_true, decide_eq_true_eq] at this
  rcases this with h1 | h1 <;> rw [hstatus] at h1 <;> exact absurd h1 (by decide)

/-- Claim C9 (amended): after a wave of an autonomous run, the combined
decision (work handler then agent_end handler) stops with `completed` when
all tasks are done, stops with `blocked` when no task is ready — regardless
of whether tasks remain in progress — stops with `manual` when the wave
count has reached `work.maxWaves`, and only otherwise continues to the next
wave. -/
theorem waveEndOutcome_eq_amended (tasks : List Task) (waveNumber maxWaves : Nat) :
    waveEndOutcome tasks waveNumber maxWaves =
      waveEndAmended tasks waveNumber maxWaves := by
  unfold waveEndOutcome postWaveDecision agentEndDecision waveEndAmended
  by_cases hdone : tasks.all (fun t => decide (t.status = .done)) = true
  · simp [hdone]
  · by_cases habd :
      tasks.all (fun t => decide (t.status = .done) || decide (t.status = .blocked)) = true
    · have hready := ready_isEmpty_of_allBlockedOrDone tasks habd
      simp [hdone, habd, hready]
    · by_cases hready : (getReadyTasks tasks).isEmpty = true
      · simp [hdone, habd, hready]
      · by_cases hwave : waveNumber ≥ maxWaves
        · simp [hdone, habd, hready, hwave]
        · simp [hdone, habd, hready, hwave]

theorem strStartsWith_empty_right (q : String) (h : q.data ≠ []) :
    strStartsWith "" q = false := by
  unfold strStartsWith
  cases hq : q.data with
  | nil => exact absurd hq h
  | cons a as => rfl

/-- Claim C5: for a directory reservation whose stored path `D` is a
normalized path (nonempty, no trailing slash), a target `P` matches iff
`P = D` or `P` starts with `D ++ "/"`; a file reservation matches iff `P`
equals the stored path exactly; and a trailing slash on the (trimmed) input
marks the reservation as a directory. -/
theorem reservationMatches_spec (P D : String) (hne : D ≠ "")
    (hns : strEndsWith D "/" = false) :
    (reservationMatches P ⟨D, true⟩ = true ↔
        P = D ∨ strStartsWith P (D ++ "/") = true) ∧
    (reservationMatches P ⟨D, false⟩ = true ↔ P = D) ∧
    (∀ (normFs : String → String) (input : String),
        strEndsWith input.trim "/" = true →
          (normalizeReservationPath normFs input).2 = true) := by
  have hdata : (D ++ "/").data ≠ [] := by
    have h1 : (D ++ "/").data = D.data ++ ['/'] := rfl
    simp [h1]
  refine ⟨?_, ?_, ?_⟩
  · rcases eq_or_ne P "" with hP | hP
    · subst hP
      simp [reservationMatches, strStartsWith_empty_right _ hdata]
      exact fun h => hne h.symm
    · simp [reservationMatches, hP, hns]
  · rcases eq_or_ne P "" with hP | hP
    · subst hP
      simp [reservationMatches]
      exact fun h => hne h.symm
    · simp [reservationMatches, hP]
  · intro normFs input h
    simp [normalizeReservationPath, h]

theorem reservationMatches_spec_witness :
    ("/repo/src" : String) ≠ "" ∧ strEndsWith "/repo/src" "/" = false ∧
      reservationMatches "/repo/src/app.ts" ⟨"/repo/src", true⟩ = true :=
  ⟨by decide, by decide,
    ((reservationMatches_spec "/repo/src/app.ts" "/repo/src" (by decide) (by decide)).1).mpr
      (Or.inr (by decide))⟩

/-! ### Association-list and claim-map lemmas -/

/-! ### Association-list and claim-map lemmas -/

theorem alGet_mem {α : Type} {xs : List (String × α)} {k : String} {v : α}
    (h : alGet xs k = some v) : (k, v) ∈ xs := by
  induction xs with
  | nil => simp [alGet] at h
  | cons hd rest ih =>
    obtain ⟨k', w⟩ := hd
    by_cases hk : k' = k
    · subst hk
      simp [alGet] at h
      subst h
      exact List.mem_cons_self _ _
    · simp only [alGet, if_neg hk] at h
      exact List.mem_cons_of_mem _ (ih h)

theorem alGet_filter {α : Type} {xs : List (String × α)} {k : String} {v : α}
    {q : String × α → Bool} (h : alGet xs k = some v) (hq : q (k, v) = true) :
    alGet (xs.filter q) k = some v := by
  induction xs with
  | nil => simp [alGet] at h
  | cons hd rest ih =>
    obtain ⟨k', w⟩ := hd
    by_cases hk : k' = k
    · subst hk
      simp [alGet] at h
      subst h
      rw [List.filter_cons_of_pos hq]
      simp [alGet]
    · simp only [alGet, if_neg hk] at h
      by_cases hw : q (k', w) = true
      · rw [List.filter_cons_of_pos hw]
        simpa [alGet, hk] using ih h
      · rw [List.filter_cons_of_neg (by simpa using hw)]
        exact ih h

theorem alSet_of_alGet_none {α : Type} {xs : List (String × α)} {k : String}
    (v : α) (h : alGet xs k = none) : alSet xs k v = xs ++ [(k, v)] := by
  induction xs with
  | nil => rfl
  | cons hd rest ih =>
    obtain ⟨k', w⟩ := hd
    by_cases hk : k' = k
    · subst hk; simp [alGet] at h
    · simp only [alGet, if_neg hk] at h
      simp [alSet, hk, ih h]

theorem mem_alSet {α : Type} {xs : List (String × α)} {k : String} {v : α}
    {x : String × α} (h : x ∈ alSet xs k v) : x ∈ xs ∨ x = (k, v) := by
  induction xs with
  | nil =>
    simp [alSet] at h
    exact Or.inr h
  | cons hd rest ih =>
    obtain ⟨k', w⟩ := hd
    by_cases hk : k' = k
    · subst hk
      simp [alSet] at h
      rcases h with h | h
      · exact Or.inr h
      · exact Or.inl (List.mem_cons_of_mem _ h)
    · simp only [alSet, if_neg hk, List.mem_cons] at h
      rcases h with h | h
      · exact Or.inl (by rw [h]; exact List.mem_cons_self _ _)
      · rcases ih h with h' | h'
        · exact Or.inl (List.mem_cons_of_mem _ h')
        · exact Or.inr h'

theorem mem_alRemove {α : Type} {xs : List (String × α)} {k : String}
    {x : String × α} (h : x ∈ alRemove xs k) : x ∈ xs := by
  induction xs with
  | nil => simp [alRemove] at h
  | cons hd rest ih =>
    obtain ⟨k', w⟩ := hd
    by_cases hk : k' = k
    · subst hk
      simp only [alRemove, if_pos rfl] at h
      exact List.mem_cons_of_mem _ h
    · simp only [alRemove, if_neg hk, List.mem_cons] at h
      rcases h with h | h
      · exact (by rw [h]; exact List.mem_cons_self _ _)
      · exact List.mem_cons_of_mem _ (ih h)

theorem mem_claimEntries_iff {m : AllClaims} {c : ClaimEntry} :
    c ∈ claimEntries m ↔ ∃ st ∈ m, ∃ t0, (t0, c) ∈ st.2 := by
  constructor
  · intro h
    simp only [claimEntries, List.mem_flatMap, List.mem_map] at h
    obtain ⟨st, hst, x, hx, hxc⟩ := h
    refine ⟨st, hst, x.1, ?_⟩
    rw [← hxc]
    exact hx
  · rintro ⟨st, hst, t0, h⟩
    simp only [claimEntries, List.mem_flatMap, List.mem_map]
    exact ⟨st, hst, (t0, c), h, rfl⟩

theorem claimEntries_cleanup_nonstale (env : SwarmEnv) {m : AllClaims} {c : ClaimEntry}
    (h : c ∈ claimEntries (cleanupStaleClaims env m)) : isClaimStale env c = false := by
  rw [mem_claimEntries_iff] at h
  obtain ⟨st, hst, t0, htc⟩ := h
  rw [cleanupStaleClaims, List.mem_filter] at hst
  obtain ⟨hst', _⟩ := hst
  rw [List.mem_map] at hst'
  obtain ⟨st0, _, hst0⟩ := hst'
  rw [← hst0] at htc
  simp only at htc
  rw [List.mem_filter] at htc
  simpa using htc.2

theorem claimEntries_filterStale_nonstale (env : SwarmEnv) {m : AllClaims}
    {c : ClaimEntry} (h : c ∈ claimEntries (filterStaleClaims env m)) :
    isClaimStale env c = false := by
  rw [mem_claimEntries_iff] at h
  obtain ⟨st, hst, t0, htc⟩ := h
  rw [filterStaleClaims, List.mem_filterMap] at hst
  obtain ⟨st0, _, hst0⟩ := hst
  simp only at hst0
  by_cases he : (st0.2.filter fun tc => !isClaimStale env tc.2).isEmpty
  · rw [if_pos he] at hst0
    exact absurd hst0 (by simp)
  · rw [if_neg he] at hst0
    injection hst0 with hst0
    rw [← hst0] at htc
    simp only at htc
    rw [List.mem_filter] at htc
    simpa using htc.2

theorem mem_claimEntries_alSet_outer {m : AllClaims} {s : String} {ts : SpecClaims}
    {c : ClaimEntry} (h : c ∈ claimEntries (alSet m s ts)) :
    c ∈ claimEntries m ∨ ∃ t0, (t0, c) ∈ ts := by
  rw [mem_claimEntries_iff] at h
  obtain ⟨st, hst, t0, htc⟩ := h
  rcases mem_alSet hst with h' | h'
  · exact Or.inl (mem_claimEntries_iff.mpr ⟨st, h', t0, htc⟩)
  · subst h'
    exact Or.inr ⟨t0, htc⟩

theorem mem_claimEntries_alRemove_outer {m : AllClaims} {s : String} {c : ClaimEntry}
    (h : c ∈ claimEntries (alRemove m s)) : c ∈ claimEntries m := by
  rw [mem_claimEntries_iff] at h
  obtain ⟨st, hst, t0, htc⟩ := h
  exact mem_claimEntries_iff.mpr ⟨st, mem_alRemove hst, t0, htc⟩

theorem mem_claimEntries_setClaim {m : AllClaims} {s t : String} {v c : ClaimEntry}
    (h : c ∈ claimEntries (setClaim m s t v)) : c ∈ claimEntries m ∨ c = v := by
  rcases mem_claimEntries_alSet_outer h with h' | h'
  · exact Or.inl h'
  · obtain ⟨t0, h'⟩ := h'
    rcases mem_alSet h' with h'' | h''
    · cases hget : alGet m s with
      | none => rw [hget] at h''; simp at h''
      | some ts0 =>
        rw [hget] at h''
        simp only [Option.getD_some] at h''
        exact Or.inl (mem_claimEntries_iff.mpr ⟨(s, ts0), alGet_mem hget, t0, h''⟩)
    · exact Or.inr (by injection h'' with h1 h2)

theorem mem_claimEntries_removeClaim {m : AllClaims} {s t : String} {c : ClaimEntry}
    (h : c ∈ claimEntries (removeClaim m s t)) : c ∈ claimEntries m := by
  rw [removeClaim] at h
  cases hget : alGet m s with
  | none => rw [hget] at h; exact h
  | some ts =>
    rw [hget] at h
    simp only at h
    by_cases he : (alRemove ts t).isEmpty
    · rw [if_pos he] at h
      exact mem_claimEntries_alRemove_outer h
    · rw [if_neg he] at h
      rcases mem_claimEntries_alSet_outer h with h' | h'
      · exact h'
      · obtain ⟨t0, h'⟩ := h'
        exact mem_claimEntries_iff.mpr ⟨(s, ts), alGet_mem hget, t0, mem_alRemove h'⟩

theorem isEmpty_false_of_ne_nil {α : Type} {l : List α} (h : l ≠ []) :
    l.isEmpty = false := by
  cases l with
  | nil => exact absurd rfl h
  | cons a as => rfl

theorem findInSpec_eq_none_iff {s a : String} {ts : SpecClaims} :
    findInSpec s a ts = none ↔
      (ts.filterMap fun tc => if tc.2.agent = a then some (s, tc.1) else none) = [] := by
  induction ts with
  | nil => simp [findInSpec]
  | cons hd rest ih =>
    obtain ⟨t, c⟩ := hd
    by_cases hc : c.agent = a
    · simp [findInSpec, hc, List.filterMap_cons]
    · simp [findInSpec, hc, List.filterMap_cons, ih]

theorem findInSpec_mem {s a : String} {ts : SpecClaims} {p : String × String}
    (h : findInSpec s a ts = some p) :
    p ∈ ts.filterMap fun tc => if tc.2.agent = a then some (s, tc.1) else none := by
  induction ts with
  | nil => simp [findInSpec] at h
  | cons hd rest ih =>
    obtain ⟨t, c⟩ := hd
    by_cases hc : c.agent = a
    · simp only [findInSpec, if_pos hc, Option.some.injEq] at h
      rw [List.filterMap_cons]
      simp [hc, ← h]
    · simp only [findInSpec, if_neg hc] at h
      rw [List.filterMap_cons]
      simp only [hc, if_neg, ite_eq_right_iff]
      simpa [hc] using ih h

theorem findAgentClaim_eq_none_iff {m : AllClaims} {a : String} :
    findAgentClaim m a = none ↔ ownedBy a m = [] := by
  induction m with
  | nil => simp [findAgentClaim, ownedBy]
  | cons hd rest ih =>
    obtain ⟨s, ts⟩ := hd
    cases hf : findInSpec s a ts with
    | some p =>
      simp only [findAgentClaim, hf, ownedBy, List.flatMap_cons]
      constructor
      · intro h; exact absurd h (by simp)
      · intro h
        rw [List.append_eq_nil] at h
        have hp := findInSpec_mem hf
        rw [h.1] at hp
        simp at hp
    | none =>
      have hf2 := findInSpec_eq_none_iff.mp hf
      simp only [findAgentClaim, hf, ownedBy, List.flatMap_cons, hf2, List.nil_append]
      simpa [ownedBy] using ih

theorem findAgentClaim_mem {m : AllClaims} {a : String} {p : String × String}
    (h : findAgentClaim m a = some p) : p ∈ ownedBy a m := by
  induction m with
  | nil => simp [findAgentClaim] at h
  | cons hd rest ih =>
    obtain ⟨s, ts⟩ := hd
    cases hf : findInSpec s a ts with
    | some q =>
      simp only [findAgentClaim, hf, Option.some.injEq] at h
      subst h
      simp only [ownedBy, List.flatMap_cons, List.mem_append]
      exact Or.inl (findInSpec_mem hf)
    | none =>
      simp only [findAgentClaim, hf] at h
      simp only [ownedBy, List.flatMap_cons, List.mem_append]
      exact Or.inr (by simpa [ownedBy] using ih h)

theorem eq_of_mem_of_length_le_one {α : Type} {l : List α} (h : l.length ≤ 1)
    {x y : α} (hx : x ∈ l) (hy : y ∈ l) : x = y := by
  cases l with
  | nil => simp at hx
  | cons a rest =>
    cases rest with
    | nil =>
      simp at hx hy
      rw [hx, hy]
    | cons b rest' => simp at h

theorem getClaim_cleanup (env : SwarmEnv) {m : AllClaims} {s t : String} {c : ClaimEntry}
    (h : getClaim m s t = some c) (hst : isClaimStale env c = false) :
    getClaim (cleanupStaleClaims env m) s t = some c := by
  induction m with
  | nil => simp [getClaim, alGet] at h
  | cons hd rest ih =>
    obtain ⟨k, ts⟩ := hd
    by_cases hk : k = s
    · subst hk
      have hts : alGet ts t = some c := by simpa [getClaim, alGet] using h
      have hin : alGet (ts.filter fun tc => !isClaimStale env tc.2) t = some c :=
        alGet_filter hts (by simpa using hst)
      have hne : (ts.filter fun tc => !isClaimStale env tc.2) ≠ [] := by
        intro hnil
        rw [hnil] at hin
        simp [alGet] at hin
      rw [cleanupStaleClaims, List.map_cons, List.filter_cons]
      rw [if_pos (by simpa using isEmpty_false_of_ne_nil hne)]
      simpa [getClaim, alGet] using hin
    · have hrest : getClaim rest s t = some c := by simpa [getClaim, alGet, hk] using h
      have hcl := ih hrest
      rw [cleanupStaleClaims, List.map_cons, List.filter_cons]
      by_cases hie : (!(ts.filter fun tc => !isClaimStale env tc.2).isEmpty) = true
      · rw [if_pos hie]
        simpa [getClaim, alGet, hk, cleanupStaleClaims] using hcl
      · rw [if_neg hie]
        simpa [cleanupStaleClaims] using hcl

theorem ownedBy_cleanup_sublist (env : SwarmEnv) (a : String) (m : AllClaims) :
    List.Sublist (ownedBy a (cleanupStaleClaims env m)) (ownedBy a m) := by
  induction m with
  | nil => simp [cleanupStaleClaims, ownedBy]
  | cons hd rest ih =>
    obtain ⟨k, ts⟩ := hd
    rw [cleanupStaleClaims, List.map_cons, List.filter_cons]
    by_cases hie : (!(ts.filter fun tc => !isClaimStale env tc.2).isEmpty) = true
    · rw [if_pos hie]
      simp only [ownedBy, List.flatMap_cons]
      apply List.Sublist.append
      · exact List.Sublist.filterMap _ (List.filter_sublist _)
      · simpa [cleanupStaleClaims, ownedBy] using ih
    · rw [if_neg hie]
      refine List.Sublist.trans ?_ (List.sublist_append_right _ _)
      simpa [cleanupStaleClaims, ownedBy] using ih

theorem mem_ownedBy_of_getClaim {m : AllClaims} {s t : String} {c : ClaimEntry}
    {a : String} (h : getClaim m s t = some c) (ha : c.agent = a) :
    (s, t) ∈ ownedBy a m := by
  rw [getClaim] at h
  cases hg : alGet m s with
  | none => rw [hg] at h; simp at h
  | some ts =>
    rw [hg] at h
    simp only [Option.some_bind] at h
    simp only [ownedBy, List.mem_flatMap]
    refine ⟨(s, ts), alGet_mem hg, ?_⟩
    rw [List.mem_filterMap]
    exact ⟨(t, c), alGet_mem h, by simp [ha]⟩

theorem ownedBy_setClaim_length {m : AllClaims} {s t : String} (v : ClaimEntry)
    (a : String) (hnone : getClaim m s t = none) :
    (ownedBy a (setClaim m s t v)).length =
      (ownedBy a m).length + (if v.agent = a then 1 else 0) := by
  induction m with
  | nil =>
    by_cases hv : v.agent = a <;>
      simp [setClaim, alSet, alGet, ownedBy, hv]
  | cons hd rest ih =>
    obtain ⟨k, ts⟩ := hd
    by_cases hk : k = s
    · subst hk
      have hts : alGet ts t = none := by simpa [getClaim, alGet] using hnone
      have hset : setClaim ((k, ts) :: rest) k t v = (k, ts ++ [(t, v)]) :: rest := by
        simp [setClaim, alSet, alGet, alSet_of_alGet_none v hts]
      rw [hset]
      simp only [ownedBy, List.flatMap_cons, List.filterMap_append, List.length_append]
      by_cases hv : v.agent = a <;> simp [hv] <;> omega
    · have hrest : getClaim rest s t = none := by simpa [getClaim, alGet, hk] using hnone
      have hset : setClaim ((k, ts) :: rest) s t v = (k, ts) :: setClaim rest s t v := by
        simp only [setClaim, alGet, if_neg hk]
        simp [alSet, hk]
      rw [hset]
      have hlen := ih hrest
      simp only [ownedBy, List.flatMap_cons, List.length_append] at hlen ⊢
      omega

theorem alRemove_sublist {α : Type} (xs : List (String × α)) (k : String) :
    List.Sublist (alRemove xs k) xs := by
  induction xs with
  | nil => simp [alRemove]
  | cons hd rest ih =>
    obtain ⟨k', w⟩ := hd
    by_cases hk : k' = k
    · subst hk
      simp only [alRemove, if_pos rfl]
      exact List.sublist_cons_self _ _
    · simp only [alRemove, if_neg hk]
      exact List.Sublist.cons₂ _ ih

theorem ownedBy_alRemove_outer_sublist (b : String) (m : AllClaims) (s : String) :
    List.Sublist (ownedBy b (alRemove m s)) (ownedBy b m) := by
  induction m with
  | nil => simp [alRemove]
  | cons hd rest ih =>
    obtain ⟨k, ws⟩ := hd
    by_cases hk : k = s
    · subst hk
      simp only [alRemove, if_pos rfl, ownedBy, List.flatMap_cons]
      exact List.sublist_append_right _ _
    · simp only [alRemove, if_neg hk, ownedBy, List.flatMap_cons]
      exact List.Sublist.append (List.Sublist.refl _) (by simpa [ownedBy] using ih)

theorem ownedBy_alSet_remove_sublist (b : String) {m : AllClaims} {s : String}
    {ts : SpecClaims} (t : String) (hget : alGet m s = some ts) :
    List.Sublist (ownedBy b (alSet m s (alRemove ts t))) (ownedBy b m) := by
  induction m with
  | nil => simp [alGet] at hget
  | cons hd rest ih =>
    obtain ⟨k, ws⟩ := hd
    by_cases hk : k = s
    · subst hk
      simp [alGet] at hget
      subst hget
      simp only [alSet, if_pos rfl, ownedBy, List.flatMap_cons]
      exact List.Sublist.append (List.Sublist.filterMap _ (alRemove_sublist _ _))
        (List.Sublist.refl _)
    · simp only [alGet, if_neg hk] at hget
      simp only [alSet, if_neg hk, ownedBy, List.flatMap_cons]
      exact List.Sublist.append (List.Sublist.refl _) (by simpa [ownedBy] using ih hget)

theorem singleClaim_removeClaim {m : AllClaims} (h : SingleClaimPerAgent m)
    (s t : String) : SingleClaimPerAgent (removeClaim m s t) := by
  intro b
  refine le_trans (List.Sublist.length_le ?_) (h b)
  rw [removeClaim]
  cases hget : alGet m s with
  | none => exact List.Sublist.refl _
  | some ts =>
    simp only
    by_cases he : (alRemove ts t).isEmpty
    · rw [if_pos he]
      exact ownedBy_alRemove_outer_sublist b m s
    · rw [if_neg he]
      exact ownedBy_alSet_remove_sublist b t hget

/-- Claim C1: claimTask preserves the single-claim-per-agent invariant, and
when the calling agent already holds a non-stale claim anywhere (across all
specs), it returns `already_have_claim` carrying that existing
(spec, task id) and records no new claim (the stored state is only cleaned
of stale claims). -/
theorem claimTask_single_claim (env : SwarmEnv) (stored : AllClaims)
    (specPath taskId agent sessionId : String) (pid : Nat) (reason : Option String)
    (now : String) (hinv : SingleClaimPerAgent stored) :
    SingleClaimPerAgent
        (claimTask env stored specPath taskId agent sessionId pid reason now).2 ∧
      (∀ s2 t2 a2, SingleClaimPerAgent (unclaimTask env stored s2 t2 a2).2) ∧
      (∀ comps s2 t2 a2 notes2 now2,
        SingleClaimPerAgent (completeTask env stored comps s2 t2 a2 notes2 now2).claims) ∧
      (∀ s t c, getClaim stored s t = some c → c.agent = agent →
        isClaimStale env c = false →
          (claimTask env stored specPath taskId agent sessionId pid reason now).1 =
              ClaimResult.alreadyHaveClaim s t ∧
            (claimTask env stored specPath taskId agent sessionId pid reason now).2 =
              cleanupStaleClaims env stored) := by
  have hinv' : SingleClaimPerAgent (cleanupStaleClaims env stored) := fun b =>
    le_trans (List.Sublist.length_le (ownedBy_cleanup_sublist env b stored)) (hinv b)
  refine ⟨?_, ?_, ?_, ?_⟩
  · cases hfind : findAgentClaim (cleanupStaleClaims env stored) agent with
    | some p =>
      obtain ⟨s0, t0⟩ := p
      simpa [claimTask, hfind] using hinv'
    | none =>
      cases hget : getClaim (cleanupStaleClaims env stored) specPath taskId with
      | some conflict =>
        simpa [claimTask, hfind, hget] using hinv'
      | none =>
        intro b
        have hres :
            (claimTask env stored specPath taskId agent sessionId pid reason now).2 =
              setClaim (cleanupStaleClaims env stored) specPath taskId
                ⟨agent, sessionId, pid, now, reason⟩ := by
          simp [claimTask, hfind, hget]
        rw [hres, ownedBy_setClaim_length _ b hget]
        by_cases hb : agent = b
        · subst hb
          have h0 : ownedBy agent (cleanupStaleClaims env stored) = [] :=
            findAgentClaim_eq_none_iff.mp hfind
          simp [h0]
        · rw [if_neg hb]
          simpa using hinv' b
  · intro s2 t2 a2
    cases hget : getClaim (cleanupStaleClaims env stored) s2 t2 with
    | none =>
      rw [show (unclaimTask env stored s2 t2 a2).2 = cleanupStaleClaims env stored from
        by simp [unclaimTask, hget]]
      exact hinv'
    | some claim =>
      by_cases hag : claim.agent = a2
      · rw [show (unclaimTask env stored s2 t2 a2).2 =
            removeClaim (cleanupStaleClaims env stored) s2 t2 from
          by simp [unclaimTask, hget, hag]]
        exact singleClaim_removeClaim hinv' s2 t2
      · rw [show (unclaimTask env stored s2 t2 a2).2 = cleanupStaleClaims env stored from
          by simp [unclaimTask, hget, hag]]
        exact hinv'
  · intro comps s2 t2 a2 notes2 now2
    cases hcomp : getCompletion comps s2 t2 with
    | some e =>
      rw [show (completeTask env stored comps s2 t2 a2 notes2 now2).claims =
          cleanupStaleClaims env stored from by simp [completeTask, hcomp]]
      exact hinv'
    | none =>
      cases hget : getClaim (cleanupStaleClaims env stored) s2 t2 with
      | none =>
        rw [show (completeTask env stored comps s2 t2 a2 notes2 now2).claims =
            cleanupStaleClaims env stored from by simp [completeTask, hcomp, hget]]
        exact hinv'
      | some claim =>
        by_cases hag : claim.agent = a2
        · rw [show (completeTask env stored comps s2 t2 a2 notes2 now2).claims =
              removeClaim (cleanupStaleClaims env stored) s2 t2 from
            by simp [completeTask, hcomp, hget, hag]]
          exact singleClaim_removeClaim hinv' s2 t2
        · rw [show (completeTask env stored comps s2 t2 a2 notes2 now2).claims =
              cleanupStaleClaims env stored from
            by simp [completeTask, hcomp, hget, hag]]
          exact hinv'
  · intro s t c hget hag hstale
    have hc := getClaim_cleanup env hget hstale
    have hmem := mem_ownedBy_of_getClaim hc hag
    cases hfind : findAgentClaim (cleanupStaleClaims env stored) agent with
    | none =>
      rw [findAgentClaim_eq_none_iff] at hfind
      rw [hfind] at hmem
      simp at hmem
    | some p =>
      have hpmem := findAgentClaim_mem hfind
      have hpe : p = (s, t) := eq_of_mem_of_length_le_one (hinv' agent) hpmem hmem
      subst hpe
      exact ⟨by simp [claimTask, hfind], by simp [claimTask, hfind]⟩

theorem claimTask_single_claim_witness :
    SingleClaimPerAgent [("spec-a", [("TASK-1", ⟨"Alice", "S", 1, "t0", none⟩)])] ∧
      (claimTask ⟨fun _ => true, fun _ => .found ⟨1, "S"⟩⟩
          [("spec-a", [("TASK-1", ⟨"Alice", "S", 1, "t0", none⟩)])]
          "spec-b" "TASK-2" "Alice" "S" 1 none "t1").1 =
        ClaimResult.alreadyHaveClaim "spec-a" "TASK-1" := by
  have hinv : SingleClaimPerAgent
      [("spec-a", [("TASK-1", (⟨"Alice", "S", 1, "t0", none⟩ : ClaimEntry))])] := by
    intro a
    by_cases h : ("Alice" : String) = a <;> simp [ownedBy, h]
  refine ⟨hinv, ?_⟩
  exact ((claimTask_single_claim ⟨fun _ => true, fun _ => .found ⟨1, "S"⟩⟩
      [("spec-a", [("TASK-1", ⟨"Alice", "S", 1, "t0", none⟩)])]
      "spec-b" "TASK-2" "Alice" "S" 1 none "t1" hinv).2.2.2
    "spec-a" "TASK-1" ⟨"Alice", "S", 1, "t0", none⟩ rfl rfl rfl).1

/-- Claim C2, counterexample: `claimTask` never consults the completions
mapping — with (spec.md, TASK-01) present in completions and no live claim
on it, a fresh claim for the very same (spec, task id) succeeds. -/
theorem claimTask_ignores_completions :
    getCompletion [("spec.md", [("TASK-01", ⟨"Bob", "t0", none⟩)])] "spec.md" "TASK-01" =
        some ⟨"Bob", "t0", none⟩ ∧
      (claimTask ⟨fun _ => true, fun _ => .missing⟩ [] "spec.md" "TASK-01"
          "Alice" "S" 1 none "t1").1 = ClaimResult.success "t1" := by
  exact ⟨rfl, rfl⟩

/-- Claim C2 (amended): completions are terminal for the complete operation:
once (spec, task id) is in the completions mapping, every subsequent
`completeTask` for it fails with `already_completed` (returning the stored
entry) and leaves the completions mapping unchanged; `claimTask`, however,
does not consult completions, so the task id can acquire a new claim. -/
theorem completion_terminal_for_complete (env : SwarmEnv) (stored : AllClaims)
    (comps : AllCompletions) (spec task agent : String) (notes : Option String)
    (now : String) (e : CompletionEntry)
    (h : getCompletion comps spec task = some e) :
    (completeTask env stored comps spec task agent notes now).result =
        CompleteResult.alreadyCompleted e ∧
      (completeTask env stored comps spec task agent notes now).completions = comps := by
  constructor <;> simp [completeTask, h]

theorem completion_terminal_for_complete_witness :
    getCompletion [("spec.md", [("TASK-01", ⟨"Bob", "t0", none⟩)])] "spec.md" "TASK-01" =
        some ⟨"Bob", "t0", none⟩ ∧
      (completeTask ⟨fun _ => true, fun _ => .missing⟩ [] [("spec.md", [("TASK-01", ⟨"Bob", "t0", none⟩)])]
          "spec.md" "TASK-01" "Alice" none "t1").result =
        CompleteResult.alreadyCompleted ⟨"Bob", "t0", none⟩ :=
  ⟨rfl,
    (completion_terminal_for_complete ⟨fun _ => true, fun _ => .missing⟩ []
      [("spec.md", [("TASK-01", ⟨"Bob", "t0", none⟩)])] "spec.md" "TASK-01" "Alice"
      none "t1" ⟨"Bob", "t0", none⟩ rfl).1⟩

/-- Claim C3: `completeTask` succeeds iff the caller holds the (non-stale)
claim on (spec, task id) and no completion for it exists; on success the
claim entry is removed and a completion entry added, the completions file
written before the claims file; on every error result the stored state is
unchanged except for stale-claim removal. -/
theorem completeTask_semantics (env : SwarmEnv) (stored : AllClaims)
    (comps : AllCompletions) (spec task agent : String) (notes : Option String)
    (now : String) :
    (isCompleteSuccess
        (completeTask env stored comps spec task agent notes now).result = true ↔
      getCompletion comps spec task = none ∧
        ∃ c, getClaim (cleanupStaleClaims env stored) spec task = some c ∧
          c.agent = agent) ∧
    (isCompleteSuccess
        (completeTask env stored comps spec task agent notes now).result = true →
      (completeTask env stored comps spec task agent notes now).claims =
          removeClaim (cleanupStaleClaims env stored) spec task ∧
        (completeTask env stored comps spec task agent notes now).completions =
          setCompletion comps spec task ⟨agent, now, notes⟩ ∧
        (completeTask env stored comps spec task agent notes now).writes =
          [SwarmWrite.completionsFile
              (completeTask env stored comps spec task agent notes now).completions,
            SwarmWrite.claimsFile
              (completeTask env stored comps spec task agent notes now).claims]) ∧
    (isCompleteSuccess
        (completeTask env stored comps spec task agent notes now).result = false →
      (completeTask env stored comps spec task agent notes now).claims =
          cleanupStaleClaims env stored ∧
        (completeTask env stored comps spec task agent notes now).completions = comps) := by
  cases hcomp : getCompletion comps spec task with
  | some e => simp [completeTask, hcomp, isCompleteSuccess]
  | none =>
    cases hclaim : getClaim (cleanupStaleClaims env stored) spec task with
    | none => simp [completeTask, hcomp, hclaim, isCompleteSuccess]
    | some c =>
      by_cases hag : c.agent = agent
      · simp [completeTask, hcomp, hclaim, isCompleteSuccess, hag]
      · simp [completeTask, hcomp, hclaim, isCompleteSuccess, hag]

theorem completeTask_semantics_witness :
    isCompleteSuccess
        (completeTask ⟨fun _ => true, fun _ => .found ⟨1, "S"⟩⟩
          [("spec-a", [("TASK-1", ⟨"Alice", "S", 1, "t0", none⟩)])] []
          "spec-a" "TASK-1" "Alice" none "t1").result = true :=
  (completeTask_semantics ⟨fun _ => true, fun _ => .found ⟨1, "S"⟩⟩
      [("spec-a", [("TASK-1", ⟨"Alice", "S", 1, "t0", none⟩)])] []
      "spec-a" "TASK-1" "Alice" none "t1").1.mpr
    ⟨rfl, ⟨"Alice", "S", 1, "t0", none⟩, rfl, rfl⟩

/-- Claim C4, counterexample: the claim's characterization of staleness
("exactly when PID dead, or registration missing/unreadable, or session id
mismatch") is incomplete — a claim whose own PID is alive, whose registration
is readable with a matching session id but a dead registration PID, is
treated as stale by the code. -/
theorem isClaimStale_beyond_claimed_characterization :
    isClaimStale ⟨fun p => p == 1, fun _ => .found ⟨2, "S"⟩⟩
        ⟨"Alice", "S", 1, "t0", none⟩ = true ∧
      isClaimStaleClaimed ⟨fun p => p == 1, fun _ => .found ⟨2, "S"⟩⟩
        ⟨"Alice", "S", 1, "t0", none⟩ = false := by
  exact ⟨rfl, rfl⟩

/-- Claim C4 (amended): a claim is stale exactly when its recorded PID is
dead, or the registration for its agent is missing or unreadable, or the
registration's own recorded PID is dead, or the registration's session id
differs from the claim's; `getClaims` returns only non-stale claims; and the
post-state of each claim/unclaim/complete critical section contains no stale
claim (apart from, for claimTask, the freshly inserted claim). -/
theorem staleness_characterization_and_cleanup :
    (∀ env c, isClaimStale env c = isClaimStaleAmended env c) ∧
    (∀ env m c, c ∈ claimEntries (getClaims env m) → isClaimStale env c = false) ∧
    (∀ env m spec task agent sessionId pid reason now c,
      c ∈ claimEntries (claimTask env m spec task agent sessionId pid reason now).2 →
        isClaimStale env c = false ∨ c = ⟨agent, sessionId, pid, now, reason⟩) ∧
    (∀ env m spec task agent c,
      c ∈ claimEntries (unclaimTask env m spec task agent).2 →
        isClaimStale env c = false) ∧
    (∀ env m comps spec task agent notes now c,
      c ∈ claimEntries (completeTask env m comps spec task agent notes now).claims →
        isClaimStale env c = false) := by
  refine ⟨?_, ?_, ?_, ?_, ?_⟩
  · intro env c
    cases henv : env.reg c.agent with
    | missing =>
      cases h1 : env.alive c.pid <;>
        simp [isClaimStale, isClaimStaleAmended, henv, h1]
    | unreadable =>
      cases h1 : env.alive c.pid <;>
        simp [isClaimStale, isClaimStaleAmended, henv, h1]
    | found r =>
      cases h1 : env.alive c.pid <;> cases h2 : env.alive r.pid <;>
        by_cases h3 : r.sessionId = c.sessionId <;>
          simp [isClaimStale, isClaimStaleAmended, henv, h1, h2, h3]
  · intro env m c h
    exact claimEntries_filterStale_nonstale env (by simpa [getClaims] using h)
  · intro env m spec task agent sessionId pid reason now c h
    cases hfind : findAgentClaim (cleanupStaleClaims env m) agent with
    | some p =>
      obtain ⟨s0, t0⟩ := p
      rw [show (claimTask env m spec task agent sessionId pid reason now).2 =
          cleanupStaleClaims env m from by simp [claimTask, hfind]] at h
      exact Or.inl (claimEntries_cleanup_nonstale env h)
    | none =>
      cases hget : getClaim (cleanupStaleClaims env m) spec task with
      | some conflict =>
        rw [show (claimTask env m spec task agent sessionId pid reason now).2 =
            cleanupStaleClaims env m from by simp [claimTask, hfind, hget]] at h
        exact Or.inl (claimEntries_cleanup_nonstale env h)
      | none =>
        rw [show (claimTask env m spec task agent sessionId pid reason now).2 =
            setClaim (cleanupStaleClaims env m) spec task
              ⟨agent, sessionId, pid, now, reason⟩ from
          by simp [claimTask, hfind, hget]] at h
        rcases mem_claimEntries_setClaim h with h' | h'
        · exact Or.inl (claimEntries_cleanup_nonstale env h')
        · exact Or.inr h'
  · intro env m spec task agent c h
    cases hget : getClaim (cleanupStaleClaims env m) spec task with
    | none =>
      rw [show (unclaimTask env m spec task agent).2 = cleanupStaleClaims env m from
        by simp [unclaimTask, hget]] at h
      exact claimEntries_cleanup_nonstale env h
    | some claim =>
      by_cases hag : claim.agent = agent
      · rw [show (unclaimTask env m spec task agent).2 =
            removeClaim (cleanupStaleClaims env m) spec task from
          by simp [unclaimTask, hget, hag]] at h
        exact claimEntries_cleanup_nonstale env (mem_claimEntries_removeClaim h)
      · rw [show (unclaimTask env m spec task agent).2 = cleanupStaleClaims env m from
          by simp [unclaimTask, hget, hag]] at h
        exact claimEntries_cleanup_nonstale env h
  · intro env m comps spec task agent notes now c h
    cases hcomp : getCompletion comps spec task with
    | some e =>
      rw [show (completeTask env m comps spec task agent notes now).claims =
          cleanupStaleClaims env m from by simp [completeTask, hcomp]] at h
      exact claimEntries_cleanup_nonstale env h
    | none =>
      cases hget : getClaim (cleanupStaleClaims env m) spec task with
      | none =>
        rw [show (completeTask env m comps spec task agent notes now).claims =
            cleanupStaleClaims env m from by simp [completeTask, hcomp, hget]] at h
        exact claimEntries_cleanup_nonstale env h
      | some claim =>
        by_cases hag : claim.agent = agent
        · rw [show (completeTask env m comps spec task agent notes now).claims =
              removeClaim (cleanupStaleClaims env m) spec task from
            by simp [completeTask, hcomp, hget, hag]] at h
          exact claimEntries_cleanup_nonstale env (mem_claimEntries_removeClaim h)
        · rw [show (completeTask env m comps spec task agent notes now).claims =
              cleanupStaleClaims env m from
            by simp [completeTask, hcomp, hget, hag]] at h
          exact claimEntries_cleanup_nonstale env h

theorem staleness_characterization_witness :
    (⟨"Alice", "S", 1, "t0", none⟩ : ClaimEntry) ∈
        claimEntries (getClaims ⟨fun _ => true, fun _ => .found ⟨1, "S"⟩⟩
          [("spec-a", [("TASK-1", ⟨"Alice", "S", 1, "t0", none⟩)])]) ∧
      isClaimStale ⟨fun _ => true, fun _ => .found ⟨1, "S"⟩⟩
        ⟨"Alice", "S", 1, "t0", none⟩ = false :=
  ⟨by decide,
    staleness_characterization_and_cleanup.2.1 ⟨fun _ => true, fun _ => .found ⟨1, "S"⟩⟩
      [("spec-a", [("TASK-1", ⟨"Alice", "S", 1, "t0", none⟩)])]
      ⟨"Alice", "S", 1, "t0", none⟩ (by decide)⟩

end PiMessenger
